import Mathlib

/-
  Verification development for the CLMI (CLI Language Model Interface)
  repository (sflanker/clmi).

  The development shallowly embeds the bounded conversation context manager:
  the token estimator (`estimateTokens`, src/src/index.ts lines 124-128 and
  src/unnamed/part_000 lines 97-101), the conversation token counter
  (`tokenCounter`, src/src/index.ts lines 138-156), the history trimming
  policy configured on `trimMessages` (src/src/index.ts lines 133-157), and
  the REPL session controller (`term.on('line')`, src/src/index.ts lines
  168-250 and src/unnamed/part_000 lines 141-204).

  Messages carry a role, a content string and an optional provider-reported
  token usage.  Content is modelled in its normalized string form: for string
  content the source's `contentToString` returns the string unchanged
  (src/src/index.ts lines 95-98), so normalization is the identity on the
  embedded content.
-/

namespace Clmi

/-- Message roles.  The source discriminates by runtime instance checks
(HumanMessage, AIMessage, SystemMessage, ToolMessage); modelled as a closed
enum. -/
inductive Role where
  | system
  | human
  | ai
  | tool
deriving DecidableEq, Repr

/-- Provider-reported token usage, as read from
`msg.response_metadata.tokenUsage.totalTokens` by the source's token counter
(src/src/index.ts lines 141-147).  `valid n` models a numeric
`Number(totalTokens)`; `invalid` models a `NaN` result, which the source
logs and ignores. -/
inductive ReportedUsage where
  | valid (n : Int)
  | invalid
deriving DecidableEq, Repr

/-- A conversation message: role, normalized content string, and the
optional reported usage (`none` when `response_metadata` has no
`tokenUsage.totalTokens` entry). -/
structure Message where
  role : Role
  content : String
  tokenUsage : Option ReportedUsage
deriving DecidableEq, Repr

/-- The whitespace class of the JavaScript regular expression `\s` (and of
`String.prototype.trim`): space, tab, line and page separators, NBSP, the
Unicode space range U+2000-U+200A, and BOM. -/
def isJsWhitespace (c : Char) : Bool :=
  c == ' ' || c == '\t' || c == '\n' || c == '\r' || c == '\x0b' || c == '\x0c'
  || c == '\u00a0' || c == '\u1680'
  || (Nat.ble 0x2000 c.toNat && Nat.ble c.toNat 0x200a)
  || c == '\u2028' || c == '\u2029' || c == '\u202f' || c == '\u205f'
  || c == '\u3000' || c == '\ufeff'

/-- Worker for `jsSplitWs`.  The boolean is true while consuming a
whitespace run; `cur` is the current piece, reversed.  Mirrors the JS
`split(/\s+/)` semantics: a leading separator yields an initial empty piece,
a trailing separator yields a trailing empty piece, and the empty string
yields the single piece `""`. -/
def jsSplitGo : Bool → List Char → List Char → List (List Char)
  | _, cur, [] => [cur.reverse]
  | false, cur, c :: rest =>
    if isJsWhitespace c then cur.reverse :: jsSplitGo true [] rest
    else jsSplitGo false (c :: cur) rest
  | true, cur, c :: rest =>
    if isJsWhitespace c then jsSplitGo true cur rest
    else jsSplitGo false [c] rest

/-- JavaScript `content.split(/\s+/)` on a character list. -/
def jsSplitWs (cs : List Char) : List (List Char) :=
  jsSplitGo false [] cs

/-- Token estimator (src/src/index.ts lines 124-128):
`content.split(/\s+/).length` after normalization; normalization is the
identity for string content (src/src/index.ts lines 95-98). -/
def estimateTokens (content : String) : Nat :=
  (jsSplitWs content.data).length

/-- One step of the token counter's reduce (src/src/index.ts lines 140-152):
a valid reported total replaces the accumulator when larger
(`totalTokens > tokens ? totalTokens : tokens`); a missing or non-numeric
(`NaN`) reported total falls through to `tokens + estimateTokens(content)`. -/
def countStep (tokens : Int) (m : Message) : Int :=
  match m.tokenUsage with
  | some (ReportedUsage.valid n) => if n > tokens then n else tokens
  | _ => tokens + (estimateTokens m.content : Int)

/-- The conversation token counter (src/src/index.ts lines 138-156), the
`tokenCounter` passed to the trimmer: `msgs.reduce(step, 0)`. -/
def tokenCounter (msgs : List Message) : Int :=
  msgs.foldl countStep 0

/-- Role test used by the trimming policy's human-start constraint. -/
def isHuman (m : Message) : Bool :=
  match m.role with
  | Role.human => true
  | _ => false

/-- Modelled from the spec: step 3 of the trimming policy (spec section 4.3).
The selected suffix must begin with a human-authored message; leading
messages are dropped one at a time until it does, or until empty.  The
implementation of this step lives in `trimMessages` of `@langchain/core`
(configured with `endOn: 'human'` at src/src/index.ts line 137), which is
not part of this repository's sources. -/
def dropToHuman : List Message → List Message
  | [] => []
  | m :: rest => if isHuman m then m :: rest else dropToHuman rest

/-- Modelled from the spec: steps 1-2 of the trimming policy (spec section
4.3).  Among the suffixes of the conversation whose measured cost is at most
the budget, the longest one (candidate windows drop oldest messages first).
The implementation lives in `trimMessages` of `@langchain/core` (configured
with `strategy: 'last'`, `maxTokens: 1000` at src/src/index.ts lines
134-135), which is not part of this repository's sources. -/
def fittingSuffix (B : Nat) : List Message → List Message
  | [] => []
  | m :: rest =>
    if tokenCounter (m :: rest) ≤ (B : Int) then m :: rest
    else fittingSuffix B rest

/-- Modelled from the spec: the trimming policy `trim(conversation,
maxTokens)` of spec section 4.3, implemented by `trimMessages` of
`@langchain/core` (src/src/index.ts lines 133-157), which is not part of
this repository's sources.  Steps 1-2 select the longest fitting suffix;
when none of the non-empty suffixes fits (even the single most recent
message's cost exceeds the budget, step 4's "allow partial" case) the
single most recent message is retained anyway; otherwise step 3 drops
leading messages until the window starts on a human message or is empty. -/
def trimmer (B : Nat) (c : List Message) : List Message :=
  if fittingSuffix B c = [] then
    match c.getLast? with
    | some m => [m]
    | none => []
  else dropToHuman (fittingSuffix B c)

/-- A bot definition (src/src/index.ts lines 37-40): the system message and
the initial prompt template source. -/
structure BotDefinition where
  systemMessage : String
  initialPromptTemplate : String
deriving DecidableEq, Repr

/-- A compiled bot (src/src/index.ts lines 42-45).  The compiled Handlebars
template is modelled by its template source text; rendering is
`renderTemplate`. -/
structure CompiledBot where
  systemMessage : String
  initialPromptTemplate : String
deriving DecidableEq, Repr

/-- Compilation of a bot definition (src/src/index.ts lines 180-183):
`Handlebars.compile(bot.initialPromptTemplate)`, modelled by keeping the
template source for `renderTemplate`. -/
def compileBot (b : BotDefinition) : CompiledBot :=
  ⟨b.systemMessage, b.initialPromptTemplate⟩

/-- Worker for `renderTemplate`: substitutes every occurrence of the
template variable `\x7b\x7binput\x7d\x7d` by the input characters, left to
right. -/
def substTemplate (input : List Char) : List Char → List Char
  | '\x7b' :: '\x7b' :: 'i' :: 'n' :: 'p' :: 'u' :: 't' :: '\x7d' :: '\x7d' :: rest =>
    input ++ substTemplate input rest
  | c :: rest => c :: substTemplate input rest
  | [] => []

/-- Modelled from the spec: rendering of the initial prompt template with
one recognized substitution variable, `input` (spec section 3,
BotDefinition).  The template engine (Handlebars, invoked as
`compiledBot.initialPromptTemplate({ input })` at src/src/index.ts line 201)
is an external collaborator, not part of this repository's sources. -/
def renderTemplate (tmpl input : String) : String :=
  ⟨substTemplate input.data tmpl.data⟩

/-- The process-wide session state (spec section 3): the active bot
definition, its compiled form, and the current conversation
(src/src/index.ts lines 52-55, 119-122, 159). -/
structure Session where
  bot : BotDefinition
  compiledBot : CompiledBot
  conversation : List Message
deriving DecidableEq, Repr

/-- JavaScript `String.prototype.trim`: drop leading and trailing
whitespace (modelling `input.trim()` at src/src/index.ts lines 170-177). -/
def jsTrim (s : String) : String :=
  ⟨((s.data.dropWhile isJsWhitespace).reverse.dropWhile isJsWhitespace).reverse⟩

/-- JavaScript `split(' ')` on a single-space separator (modelling
`input.trim().split(' ')` at src/src/index.ts lines 177-179): splits at
every space character; adjacent spaces produce empty pieces. -/
def splitOnSpace : List Char → List (List Char)
  | [] => [[]]
  | c :: cs =>
    if c = ' ' then [] :: splitOnSpace cs
    else
      match splitOnSpace cs with
      | [] => [[c]]
      | t :: ts => (c :: t) :: ts

/-- The REPL commands recognized by the line handler, plus the chat
fallback. -/
inductive Command where
  | exit
  | reset
  | load (path : Option String)
  | chat (line : String)
deriving DecidableEq, Repr

/-- Command dispatch of the line handler (src/src/index.ts lines 170-196):
`.exit` and `.reset` are recognized by equality of the whole trimmed line;
`.load` by the first piece of the trimmed line split on single spaces, with
the second piece as path (`none` models the `undefined` index when the line
has no second piece); everything else is a chat message carrying the raw
line. -/
def dispatch (input : String) : Command :=
  if jsTrim input = ".exit" then Command.exit
  else if jsTrim input = ".reset" then Command.reset
  else if (⟨(splitOnSpace (jsTrim input).data).headD []⟩ : String) = ".load" then
    Command.load (((splitOnSpace (jsTrim input).data).get? 1).map fun l => (⟨l⟩ : String))
  else Command.chat input

/-- One chat turn (src/unnamed/part_000 lines 166-196; the agent variant at
src/src/index.ts lines 198-245 differs only in passing the system message
through the agent configuration instead of the message list).  On an empty
conversation the initial template is rendered with the input line and
appended as the sole human message; otherwise the raw line is appended and
the conversation is overwritten with the trimmed history (budget 1000).
`response` is the message sequence returned by the external completion
collaborator, appended afterwards.  Returns the new session and the message
list sent to the collaborator. -/
def chatTurn (s : Session) (line : String) (response : List Message) :
    Session × List Message :=
  if s.conversation = [] then
    let human : Message :=
      ⟨Role.human, renderTemplate s.compiledBot.initialPromptTemplate line, none⟩
    ({ s with conversation := human :: response },
     [⟨Role.system, s.compiledBot.systemMessage, none⟩, human])
  else
    let human : Message := ⟨Role.human, line, none⟩
    let trimmed := trimmer 1000 (s.conversation ++ [human])
    ({ s with conversation := trimmed ++ response },
     ⟨Role.system, s.compiledBot.systemMessage, none⟩ :: trimmed)

/-- The line handler (src/src/index.ts lines 168-250).  `loadResult` is the
outcome of the external `loadBotDefinition` call used when the line is a
`.load` command: `some b` on success, `none` on any failure (missing or
unreadable file, malformed JSON, schema mismatch) — in the source all of
these throw inside `loadBotDefinition` before any assignment to `bot`,
`compiledBot`, `agent` or `conversation`, so the catch block (lines 191-193)
leaves the session as it was.  `response` is the collaborator's reply for a
chat turn.  Returns `none` on `.exit` (terminate), otherwise the new session
and, for chat turns, the message list sent to the collaborator. -/
def handleLine (s : Session) (input : String) (loadResult : Option BotDefinition)
    (response : List Message) : Option (Session × Option (List Message)) :=
  match dispatch input with
  | Command.exit => none
  | Command.reset => some ({ s with conversation := [] }, none)
  | Command.load _ =>
    match loadResult with
    | some b => some (⟨b, compileBot b, []⟩, none)
    | none => some (s, none)
  | Command.chat line =>
    some ((chatTurn s line response).1, some (chatTurn s line response).2)

/-- The first whitespace-delimited token of a line, used to state the
spec's description of command recognition (spec section 6). -/
def firstWsToken (s : String) : String :=
  ⟨(jsSplitWs (jsTrim s).data).headD []⟩

/-- Command dispatch as the spec's words describe it (spec section 6):
"REPL commands (case-sensitive, first whitespace-delimited token): `.exit`,
`.reset`, `.load <path>`; anything else is a chat message."  Stated for
comparison with the source-derived `dispatch`. -/
def specDispatch (input : String) : Command :=
  if firstWsToken input = ".exit" then Command.exit
  else if firstWsToken input = ".reset" then Command.reset
  else if firstWsToken input = ".load" then
    Command.load (((jsSplitWs (jsTrim input).data).get? 1).map fun l => (⟨l⟩ : String))
  else Command.chat input

/-- Unfolding of `countStep` for a valid reported usage: the source's
conditional `totalTokens > tokens ? totalTokens : tokens` is the maximum. -/
theorem countStep_usage_valid (t : Int) (m : Message) (n : Int)
    (h : m.tokenUsage = some (ReportedUsage.valid n)) :
    countStep t m = max t n := by
  unfold countStep
  rw [h]
  dsimp only
  omega

/-- Unfolding of `countStep` for a message with no reported usage. -/
theorem countStep_usage_none (t : Int) (m : Message) (h : m.tokenUsage = none) :
    countStep t m = t + (estimateTokens m.content : Int) := by
  unfold countStep
  rw [h]

/-- Unfolding of `countStep` for a non-numeric reported usage. -/
theorem countStep_usage_invalid (t : Int) (m : Message)
    (h : m.tokenUsage = some ReportedUsage.invalid) :
    countStep t m = t + (estimateTokens m.content : Int) := by
  unfold countStep
  rw [h]

/-- Each step of the token counter never decreases the running total. -/
theorem le_countStep (t : Int) (m : Message) : t ≤ countStep t m := by
  rcases h : m.tokenUsage with _ | u
  · rw [countStep_usage_none t m h]
    have := Int.natCast_nonneg (estimateTokens m.content)
    omega
  · cases u with
    | valid n => rw [countStep_usage_valid t m n h]; exact le_max_left t n
    | invalid =>
      rw [countStep_usage_invalid t m h]
      have := Int.natCast_nonneg (estimateTokens m.content)
      omega

/-- `countStep` is monotone in the running total. -/
theorem countStep_mono {a b : Int} (h : a ≤ b) (m : Message) :
    countStep a m ≤ countStep b m := by
  rcases hu : m.tokenUsage with _ | u
  · rw [countStep_usage_none a m hu, countStep_usage_none b m hu]; omega
  · cases u with
    | valid n =>
      rw [countStep_usage_valid a m n hu, countStep_usage_valid b m n hu]
      exact max_le_max h le_rfl
    | invalid =>
      rw [countStep_usage_invalid a m hu, countStep_usage_invalid b m hu]
      omega

/-- The token-counter fold is monotone in its initial accumulator. -/
theorem foldl_countStep_mono (l : List Message) :
    ∀ {a b : Int}, a ≤ b → l.foldl countStep a ≤ l.foldl countStep b := by
  induction l with
  | nil => intro a b h; simpa using h
  | cons m rest ih =>
    intro a b h
    simp only [List.foldl_cons]
    exact ih (countStep_mono h m)

/-- The token-counter fold never goes below its initial accumulator. -/
theorem le_foldl_countStep (l : List Message) :
    ∀ t : Int, t ≤ l.foldl countStep t := by
  induction l with
  | nil => intro t; simp
  | cons m rest ih =>
    intro t
    simp only [List.foldl_cons]
    exact le_trans (le_countStep t m) (ih (countStep t m))

/-- The measured cost of a conversation is non-negative. -/
theorem tokenCounter_nonneg (l : List Message) : 0 ≤ tokenCounter l :=
  le_foldl_countStep l 0

/-- Dropping leading messages never increases the measured cost. -/
theorem tokenCounter_suffix_le (t s : List Message) :
    tokenCounter s ≤ tokenCounter (t ++ s) := by
  unfold tokenCounter
  rw [List.foldl_append]
  exact foldl_countStep_mono s (le_foldl_countStep t 0)

/-- `isHuman` decides the human role. -/
theorem isHuman_iff (m : Message) : isHuman m = true ↔ m.role = Role.human := by
  cases hr : m.role <;> simp [isHuman, hr]

/-- `dropToHuman` only removes leading messages. -/
theorem dropToHuman_suffix (s : List Message) : ∃ t, t ++ dropToHuman s = s := by
  induction s with
  | nil => exact ⟨[], rfl⟩
  | cons m rest ih =>
    cases h : isHuman m
    · obtain ⟨t, ht⟩ := ih
      exact ⟨m :: t, by simp [dropToHuman, h, ht]⟩
    · exact ⟨[], by simp [dropToHuman, h]⟩

/-- A non-empty `dropToHuman` result starts with a human message. -/
theorem dropToHuman_head (s : List Message) (x : Message) (l : List Message)
    (h : dropToHuman s = x :: l) : x.role = Role.human := by
  induction s with
  | nil => simp [dropToHuman] at h
  | cons m rest ih =>
    cases hm : isHuman m
    · rw [dropToHuman, hm] at h
      exact ih (by simpa using h)
    · rw [dropToHuman, hm] at h
      simp at h
      obtain ⟨rfl, -⟩ := h
      exact (isHuman_iff _).mp hm

/-- `dropToHuman` fixes a list that already starts with a human message. -/
theorem dropToHuman_eq_self (x : Message) (l : List Message)
    (h : x.role = Role.human) : dropToHuman (x :: l) = x :: l := by
  simp [dropToHuman, (isHuman_iff x).mpr h]

/-- `dropToHuman` keeps at least one message when the list contains a human
message. -/
theorem dropToHuman_ne_nil (s : List Message) (m : Message) (hm : m ∈ s)
    (hh : m.role = Role.human) : dropToHuman s ≠ [] := by
  induction s with
  | nil => simp at hm
  | cons a rest ih =>
    cases ha : isHuman a
    · rw [dropToHuman, ha]
      simp only [Bool.false_eq_true, if_false]
      rcases List.mem_cons.mp hm with rfl | hmem
      · exact absurd ((isHuman_iff m).mpr hh) (by simp [ha])
      · exact ih hmem
    · rw [dropToHuman, ha]
      simp

/-- Case analysis for `fittingSuffix`: either no non-empty suffix fits —
and then even the most recent message alone exceeds the budget — or the
result is a non-empty suffix of the conversation within the budget. -/
theorem fittingSuffix_cases (B : Nat) (c : List Message) :
    (fittingSuffix B c = [] ∧
      ∀ m, c.getLast? = some m → (B : Int) < tokenCounter [m]) ∨
    (fittingSuffix B c ≠ [] ∧ tokenCounter (fittingSuffix B c) ≤ (B : Int) ∧
      ∃ t, t ++ fittingSuffix B c = c) := by
  induction c with
  | nil =>
    left
    exact ⟨rfl, fun m h => by simp at h⟩
  | cons a rest ih =>
    by_cases h : tokenCounter (a :: rest) ≤ (B : Int)
    · right
      refine ⟨by simp [fittingSuffix, h], by simp [fittingSuffix, h],
        ⟨[], by simp [fittingSuffix, h]⟩⟩
    · have hfs : fittingSuffix B (a :: rest) = fittingSuffix B rest := by
        simp [fittingSuffix, h]
      rcases ih with ⟨he, hlast⟩ | ⟨hne, hle, t, ht⟩
      · left
        refine ⟨hfs.trans he, ?_⟩
        intro m hm
        cases rest with
        | nil =>
          simp at hm
          subst hm
          omega
        | cons b l =>
          rw [List.getLast?_cons_cons] at hm
          exact hlast m hm
      · right
        refine ⟨hfs ▸ hne, hfs ▸ hle, ⟨a :: t, ?_⟩⟩
        rw [hfs, List.cons_append, ht]

/-- When the most recent message alone exceeds the budget, no non-empty
suffix fits. -/
theorem fittingSuffix_concat_gt (B : Nat) (m : Message)
    (hc : (B : Int) < tokenCounter [m]) :
    ∀ ys : List Message, fittingSuffix B (ys ++ [m]) = [] := by
  intro ys
  induction ys with
  | nil =>
    simp only [List.nil_append]
    simp [fittingSuffix, show ¬ tokenCounter [m] ≤ (B : Int) from by omega]
  | cons a ys ih =>
    have hs : tokenCounter (ys ++ [m]) ≤ tokenCounter (a :: (ys ++ [m])) :=
      tokenCounter_suffix_le [a] (ys ++ [m])
    have hm : tokenCounter [m] ≤ tokenCounter (ys ++ [m]) :=
      tokenCounter_suffix_le ys [m]
    show fittingSuffix B (a :: (ys ++ [m])) = []
    rw [fittingSuffix,
      if_neg (show ¬ tokenCounter (a :: (ys ++ [m])) ≤ (B : Int) from by omega)]
    exact ih

/-- `fittingSuffix` is empty when the last message alone exceeds the
budget. -/
theorem fittingSuffix_eq_nil_of_last (B : Nat) (c : List Message) (m : Message)
    (hl : c.getLast? = some m) (hc : (B : Int) < tokenCounter [m]) :
    fittingSuffix B c = [] := by
  obtain ⟨ys, rfl⟩ := List.getLast?_eq_some_iff.mp hl
  exact fittingSuffix_concat_gt B m hc ys

/-- A conversation that already fits the budget is its own longest fitting
suffix. -/
theorem fittingSuffix_self (B : Nat) (c : List Message)
    (h : tokenCounter c ≤ (B : Int)) : fittingSuffix B c = c := by
  cases c with
  | nil => rfl
  | cons a rest => simp [fittingSuffix, h]

/-- Claim C1, counterexample: the claim's parenthetical "the result is
empty only when c was empty" fails — a one-message conversation authored by
the assistant fits the budget, but step 3's human-start shrinking empties
the window. -/
theorem trimmer_empty_on_nonempty_source :
    trimmer 1000 [⟨Role.ai, "hi", none⟩] = [] ∧
    ([(⟨Role.ai, "hi", none⟩ : Message)] : List Message) ≠ [] := by
  decide

/-- Claim C1 (amended): for every conversation and budget, the trimmed
result fits the budget or is a single message; a most-recent message whose
cost alone exceeds the budget is retained anyway; and when the last message
of the conversation is human — as always when the session controller
invokes the trimmer, right after appending the user's message — the result
is empty only when the conversation was empty. -/
theorem trimmer_budget_or_irreducible (c : List Message) (B : Nat) :
    (tokenCounter (trimmer B c) ≤ (B : Int) ∨ (trimmer B c).length = 1) ∧
    (∀ m, c.getLast? = some m → (B : Int) < tokenCounter [m] →
      trimmer B c = [m]) ∧
    (∀ m, c.getLast? = some m → m.role = Role.human → trimmer B c ≠ []) := by
  refine ⟨?_, ?_, ?_⟩
  · rcases fittingSuffix_cases B c with ⟨he, hlast⟩ | ⟨hne, hle, t, ht⟩
    · rw [trimmer, if_pos he]
      cases hl : c.getLast? with
      | none =>
        left
        simp [tokenCounter]
      | some m => right; rfl
    · rw [trimmer, if_neg hne]
      left
      obtain ⟨p, hp⟩ := dropToHuman_suffix (fittingSuffix B c)
      have h2 := tokenCounter_suffix_le p (dropToHuman (fittingSuffix B c))
      rw [hp] at h2
      exact le_trans h2 hle
  · intro m hl hc
    have he := fittingSuffix_eq_nil_of_last B c m hl hc
    rw [trimmer, if_pos he, hl]
  · intro m hl hh
    rcases fittingSuffix_cases B c with ⟨he, -⟩ | ⟨hne, -, t, ht⟩
    · rw [trimmer, if_pos he, hl]
      simp
    · rw [trimmer, if_neg hne]
      have hsl : (fittingSuffix B c).getLast? = some m := by
        rcases hs : (fittingSuffix B c).getLast? with _ | a
        · exact absurd (List.getLast?_eq_none_iff.mp hs) hne
        · rw [← ht, List.getLast?_append, hs] at hl
          simp at hl
          rw [hl]
      have hmem : m ∈ fittingSuffix B c := List.mem_of_getLast?_eq_some hsl
      exact dropToHuman_ne_nil _ m hmem hh

/-- Claim C1, witness: a single human message costing 1 token against
budget 0 is retained (irreducible case) and the result is non-empty. -/
theorem trimmer_budget_or_irreducible_witness :
    trimmer 0 [⟨Role.human, "hey", none⟩] = [⟨Role.human, "hey", none⟩] ∧
    trimmer 0 [⟨Role.human, "hey", none⟩] ≠ [] :=
  ⟨(trimmer_budget_or_irreducible [⟨Role.human, "hey", none⟩] 0).2.1
      ⟨Role.human, "hey", none⟩ rfl (by decide),
    (trimmer_budget_or_irreducible [⟨Role.human, "hey", none⟩] 0).2.2
      ⟨Role.human, "hey", none⟩ rfl rfl⟩

/-- Claim C3, counterexample: when even the most recent message exceeds the
budget, the retained one-message window is kept regardless of role, so a
non-empty trim result can start with a non-human message. -/
theorem trimmer_nonhuman_head_cex :
    trimmer 0 [⟨Role.ai, "word", none⟩] = [⟨Role.ai, "word", none⟩] ∧
    (⟨Role.ai, "word", none⟩ : Message).role ≠ Role.human := by
  decide

/-- Claim C3 (amended): when the last message of the conversation is human
— as always when the session controller invokes the trimmer — every
non-empty trim result starts with a human message; whenever some non-empty
suffix fits, the result is the longest fitting suffix shrunk by dropping
leading messages until it begins with a human message or is empty; and a
non-empty shrunk window always begins with a human message. -/
theorem trimmer_head_human (c : List Message) (B : Nat) :
    (∀ m, c.getLast? = some m → m.role = Role.human →
      ∀ x l, trimmer B c = x :: l → x.role = Role.human) ∧
    (fittingSuffix B c ≠ [] →
      trimmer B c = dropToHuman (fittingSuffix B c)) ∧
    (∀ s x l, dropToHuman s = x :: l → x.role = Role.human) := by
  refine ⟨?_, ?_, fun s x l h => dropToHuman_head s x l h⟩
  · intro m hl hh x l htr
    rcases fittingSuffix_cases B c with ⟨he, -⟩ | ⟨hne, -, -⟩
    · rw [trimmer, if_pos he, hl] at htr
      simp at htr
      obtain ⟨rfl, -⟩ := htr
      exact hh
    · rw [trimmer, if_neg hne] at htr
      exact dropToHuman_head _ x l htr
  · intro hne
    rw [trimmer, if_neg hne]

/-- Claim C3, witness: a conversation ending with a human message whose
longest fitting suffix starts with an assistant message is shrunk to start
on the human message. -/
theorem trimmer_head_human_witness :
    trimmer 1000 [⟨Role.ai, "a", none⟩, ⟨Role.human, "b", none⟩] =
      [⟨Role.human, "b", none⟩] ∧
    (⟨Role.human, "b", none⟩ : Message).role = Role.human :=
  ⟨by decide,
    (trimmer_head_human [⟨Role.ai, "a", none⟩, ⟨Role.human, "b", none⟩] 1000).1
      ⟨Role.human, "b", none⟩ (by decide) rfl ⟨Role.human, "b", none⟩ []
      (by decide)⟩

/-- Claim C6 (confirmed): the trimming policy is idempotent — trimming an
already-trimmed conversation with the same budget changes nothing. -/
theorem trimmer_idempotent (B : Nat) (c : List Message) :
    trimmer B (trimmer B c) = trimmer B c := by
  rcases fittingSuffix_cases B c with ⟨he, hlast⟩ | ⟨hne, hle, t, ht⟩
  · cases hl : c.getLast? with
    | none =>
      have hc : c = [] := List.getLast?_eq_none_iff.mp hl
      subst hc
      rfl
    | some m =>
      have hr : trimmer B c = [m] := by rw [trimmer, if_pos he, hl]
      rw [hr]
      have hm := hlast m hl
      have h1 : fittingSuffix B [m] = [] := by
        simp [fittingSuffix, show ¬ tokenCounter [m] ≤ (B : Int) from by omega]
      rw [trimmer, if_pos h1]
      rfl
  · have hr : trimmer B c = dropToHuman (fittingSuffix B c) := by
      rw [trimmer, if_neg hne]
    rw [hr]
    obtain ⟨p, hp⟩ := dropToHuman_suffix (fittingSuffix B c)
    have hcost : tokenCounter (dropToHuman (fittingSuffix B c)) ≤ (B : Int) := by
      have h2 := tokenCounter_suffix_le p (dropToHuman (fittingSuffix B c))
      rw [hp] at h2
      exact le_trans h2 hle
    cases hd : dropToHuman (fittingSuffix B c) with
    | nil => rfl
    | cons x l =>
      rw [hd] at hcost
      have hx : x.role = Role.human := dropToHuman_head _ x l hd
      have hfit : fittingSuffix B (x :: l) = x :: l :=
        fittingSuffix_self B (x :: l) hcost
      rw [trimmer, if_neg (by simp [hfit]), hfit]
      exact dropToHuman_eq_self x l hx

/-- Claim C2 (confirmed): the token counter folds the conversation in
order; appending a message with a valid reported usage turns the running
total into the maximum of the running total and the reported usage — so a
reported usage smaller than the running sum never decreases it — and
appending any other message (no usage, or a non-numeric usage, which the
source logs and ignores) adds that message's estimate; the total never
decreases. -/
theorem tokenCounter_snoc_spec (c : List Message) (m : Message) :
    tokenCounter (c ++ [m]) =
      (match m.tokenUsage with
       | some (ReportedUsage.valid n) => max (tokenCounter c) n
       | _ => tokenCounter c + (estimateTokens m.content : Int)) ∧
    tokenCounter c ≤ tokenCounter (c ++ [m]) := by
  have hstep : tokenCounter (c ++ [m]) = countStep (tokenCounter c) m := by
    unfold tokenCounter
    rw [List.foldl_append]
    rfl
  constructor
  · rw [hstep]
    rcases hu : m.tokenUsage with _ | u
    · rw [countStep_usage_none _ m hu]
    · cases u with
      | valid n => rw [countStep_usage_valid _ m n hu]
      | invalid => rw [countStep_usage_invalid _ m hu]
  · rw [hstep]
    exact le_countStep _ m

/-- The token-counter fold over usage-free messages adds up the
per-message estimates. -/
theorem foldl_countStep_estimates (c : List Message) :
    ∀ t : Int, (∀ m ∈ c, m.tokenUsage = none) →
      c.foldl countStep t =
        t + ((c.map fun m => (estimateTokens m.content : Int)).sum) := by
  induction c with
  | nil => intro t _; simp
  | cons a rest ih =>
    intro t h
    have ha : a.tokenUsage = none := h a (List.mem_cons_self a rest)
    simp only [List.foldl_cons, List.map_cons, List.sum_cons]
    rw [countStep_usage_none t a ha,
      ih _ fun m hm => h m (List.mem_cons_of_mem a hm)]
    ring

/-- Claim C5 (confirmed): the estimate is a non-negative count of
whitespace-delimited tokens, and for a conversation in which no message
carries a reported usage the measured cost is exactly the sum of the
per-message estimates. -/
theorem tokenCounter_eq_sum_estimates :
    (∀ content : String, (0 : Int) ≤ (estimateTokens content : Int)) ∧
    ∀ c : List Message, (∀ m ∈ c, m.tokenUsage = none) →
      tokenCounter c = ((c.map fun m => (estimateTokens m.content : Int)).sum) := by
  refine ⟨fun content => Int.natCast_nonneg _, fun c h => ?_⟩
  unfold tokenCounter
  rw [foldl_countStep_estimates c 0 h]
  ring

/-- Claim C5, witness: a two-message conversation with no reported usage
measures as the sum of the whitespace-token counts (2 + 1 = 3). -/
theorem tokenCounter_eq_sum_estimates_witness :
    tokenCounter [⟨Role.human, "one two", none⟩, ⟨Role.ai, "three", none⟩] =
      (([⟨Role.human, "one two", none⟩, ⟨Role.ai, "three", none⟩] :
          List Message).map fun m => (estimateTokens m.content : Int)).sum ∧
    tokenCounter [⟨Role.human, "one two", none⟩, ⟨Role.ai, "three", none⟩] = 3 :=
  ⟨tokenCounter_eq_sum_estimates.2 _ (by decide), by decide⟩

/-- The splitter never produces an empty piece list: JavaScript
`split` always yields at least one element. -/
theorem jsSplitGo_ne_nil (cs : List Char) :
    ∀ (b : Bool) (cur : List Char), jsSplitGo b cur cs ≠ [] := by
  induction cs with
  | nil => intro b cur; cases b <;> simp [jsSplitGo]
  | cons c rest ih =>
    intro b cur
    cases b
    · simp only [jsSplitGo]
      split
      · simp
      · exact ih false _
    · simp only [jsSplitGo]
      split
      · exact ih true _
      · exact ih false _

/-- Every content string estimates to at least one token: even the empty
string splits into a one-element piece list. -/
theorem estimateTokens_pos (s : String) : 1 ≤ estimateTokens s := by
  unfold estimateTokens jsSplitWs
  exact List.length_pos.mpr (jsSplitGo_ne_nil s.data false [])

/-- A list of integers that are all at least one sums to at least its
length. -/
theorem sum_ge_length (l : List Int) (h : ∀ x ∈ l, 1 ≤ x) :
    (l.length : Int) ≤ l.sum := by
  induction l with
  | nil => simp
  | cons a rest ih =>
    simp only [List.length_cons, List.sum_cons]
    have ha := h a (List.mem_cons_self a rest)
    have hr := ih fun x hx => h x (List.mem_cons_of_mem a hx)
    push_cast
    omega

/-- Claim C10 (confirmed): `estimateTokens` is never zero — the empty
string splits into a one-element array — so every message contributes at
least one token to the estimate branch, and a conversation of n messages
with no reported usage measures at least n. -/
theorem estimate_lower_bounds :
    estimateTokens "" = 1 ∧
    (∀ s : String, 1 ≤ estimateTokens s) ∧
    ∀ c : List Message, (∀ m ∈ c, m.tokenUsage = none) →
      (c.length : Int) ≤ tokenCounter c := by
  refine ⟨by decide, estimateTokens_pos, fun c h => ?_⟩
  unfold tokenCounter
  rw [foldl_countStep_estimates c 0 h]
  have hs : (((c.map fun m => (estimateTokens m.content : Int)).length : Int)) ≤
      (c.map fun m => (estimateTokens m.content : Int)).sum := by
    refine sum_ge_length _ ?_
    intro x hx
    simp only [List.mem_map] at hx
    obtain ⟨m, -, rfl⟩ := hx
    exact_mod_cast estimateTokens_pos m.content
  rw [List.length_map] at hs
  omega

/-- Claim C10, witness: two empty-content messages with no reported usage
measure at least 2 (in fact exactly 2), and a concrete string estimates to
at least one token. -/
theorem estimate_lower_bounds_witness :
    ((([⟨Role.human, "", none⟩, ⟨Role.ai, "", none⟩] :
        List Message).length : Int) ≤
      tokenCounter [⟨Role.human, "", none⟩, ⟨Role.ai, "", none⟩]) ∧
    1 ≤ estimateTokens "xyz" :=
  ⟨estimate_lower_bounds.2.2 [⟨Role.human, "", none⟩, ⟨Role.ai, "", none⟩]
      (by decide),
    estimate_lower_bounds.2.1 "xyz"⟩

/-- Claim C4 (confirmed): when the `.load` command's external loader fails
(missing or unreadable file, malformed JSON, schema mismatch — all of which
throw inside `loadBotDefinition` before any assignment), the error is
logged and the whole session — bot definition, compiled template and system
message, and conversation — is returned exactly as it was. -/
theorem handleLine_load_failure (s : Session) (input : String) (p : Option String)
    (response : List Message) (h : dispatch input = Command.load p) :
    handleLine s input none response = some (s, none) := by
  unfold handleLine
  rw [h]

/-- Claim C4, witness: `.load missing.json` with a failing loader leaves a
concrete session with a non-empty conversation untouched. -/
theorem handleLine_load_failure_witness :
    handleLine
      ⟨⟨"sys", "tmpl"⟩, ⟨"sys", "tmpl"⟩, [⟨Role.human, "hi", none⟩]⟩
      ".load missing.json" none [] =
    some (⟨⟨"sys", "tmpl"⟩, ⟨"sys", "tmpl"⟩, [⟨Role.human, "hi", none⟩]⟩, none) :=
  handleLine_load_failure
    ⟨⟨"sys", "tmpl"⟩, ⟨"sys", "tmpl"⟩, [⟨Role.human, "hi", none⟩]⟩
    ".load missing.json" (some "missing.json") [] (by decide)

/-- Claim C7 (confirmed): on a chat turn with an empty conversation, the
initial prompt template is rendered with the input line and appended as the
sole human message, and the system message plus that human message are sent
to the completion collaborator (the returned response is folded in
afterwards). -/
theorem handleLine_first_turn (s : Session) (input : String)
    (loadResult : Option BotDefinition) (response : List Message)
    (hconv : s.conversation = [])
    (hd : dispatch input = Command.chat input) :
    handleLine s input loadResult response =
      some ({ s with conversation :=
          ⟨Role.human, renderTemplate s.compiledBot.initialPromptTemplate input,
            none⟩ :: response },
        some [⟨Role.system, s.compiledBot.systemMessage, none⟩,
          ⟨Role.human, renderTemplate s.compiledBot.initialPromptTemplate input,
            none⟩]) := by
  unfold handleLine
  rw [hd]
  simp [chatTurn, hconv]

/-- Claim C7, witness: with the definition `{systemMessage: "S",
initialPromptTemplate: "Q: \x7b\x7binput\x7d\x7d"}` and first input
`"hello"`, the stored human message content is exactly `"Q: hello"` and
`[system, human]` is sent. -/
theorem handleLine_first_turn_witness :
    handleLine
      ⟨⟨"S", "Q: \x7b\x7binput\x7d\x7d"⟩, ⟨"S", "Q: \x7b\x7binput\x7d\x7d"⟩, []⟩
      "hello" none [] =
    some (⟨⟨"S", "Q: \x7b\x7binput\x7d\x7d"⟩, ⟨"S", "Q: \x7b\x7binput\x7d\x7d"⟩,
        [⟨Role.human, "Q: hello", none⟩]⟩,
      some [⟨Role.system, "S", none⟩, ⟨Role.human, "Q: hello", none⟩]) := by
  have h := handleLine_first_turn
    ⟨⟨"S", "Q: \x7b\x7binput\x7d\x7d"⟩, ⟨"S", "Q: \x7b\x7binput\x7d\x7d"⟩, []⟩
    "hello" none [] rfl (by decide)
  rw [h]
  decide

/-- Claim C8, counterexample: command recognition is not by first
whitespace-delimited token — the line `".exit now"` has first token
`.exit`, so the spec's dispatch would exit, but the source compares the
whole trimmed line and treats the line as a chat message. -/
theorem dispatch_first_token_cex :
    specDispatch ".exit now" = Command.exit ∧
    dispatch ".exit now" = Command.chat ".exit now" := by
  decide

/-- Claim C8 (amended): recognition is case-sensitive, but `.exit` and
`.reset` are recognized by equality of the whole trimmed line, and `.load`
by the first space-delimited (not whitespace-delimited) token of the
trimmed line, with the second space-delimited piece as path; any other line
is a chat message carrying the raw input. -/
theorem dispatch_characterization (s : String) :
    (jsTrim s = ".exit" → dispatch s = Command.exit) ∧
    (jsTrim s ≠ ".exit" → jsTrim s = ".reset" → dispatch s = Command.reset) ∧
    (jsTrim s ≠ ".exit" → jsTrim s ≠ ".reset" →
      (⟨(splitOnSpace (jsTrim s).data).headD []⟩ : String) = ".load" →
      dispatch s = Command.load
        (((splitOnSpace (jsTrim s).data).get? 1).map fun l => (⟨l⟩ : String))) ∧
    (jsTrim s ≠ ".exit" → jsTrim s ≠ ".reset" →
      (⟨(splitOnSpace (jsTrim s).data).headD []⟩ : String) ≠ ".load" →
      dispatch s = Command.chat s) := by
  refine ⟨fun h1 => ?_, fun h1 h2 => ?_, fun h1 h2 h3 => ?_, fun h1 h2 h3 => ?_⟩
  · rw [dispatch, if_pos h1]
  · rw [dispatch, if_neg h1, if_pos h2]
  · rw [dispatch, if_neg h1, if_neg h2, if_pos h3]
  · rw [dispatch, if_neg h1, if_neg h2, if_neg h3]

/-- Claim C8, witness: `.reset` is recognized, and `.load a b` takes the
first space-delimited token as command and the second as path. -/
theorem dispatch_characterization_witness :
    dispatch ".reset" = Command.reset ∧
    dispatch ".load a b" = Command.load (some "a") :=
  ⟨(dispatch_characterization ".reset").2.1 (by decide) (by decide),
    by
      have h := (dispatch_characterization ".load a b").2.2.1 (by decide)
        (by decide) (by decide)
      rw [h]
      decide⟩

/-- Claim C9 (confirmed): from any prior state, `.reset` empties the
conversation and leaves the bot definition and the compiled
template/system message unchanged. -/
theorem handleLine_reset (s : Session) (input : String)
    (loadResult : Option BotDefinition) (response : List Message)
    (h : dispatch input = Command.reset) :
    handleLine s input loadResult response =
      some ({ s with conversation := [] }, none) := by
  unfold handleLine
  rw [h]

/-- Claim C9, witness: `.reset` on a concrete session with a non-empty
conversation empties only the conversation. -/
theorem handleLine_reset_witness :
    handleLine
      ⟨⟨"sm", "tp"⟩, ⟨"sm", "tp"⟩,
        [⟨Role.human, "a", none⟩, ⟨Role.ai, "b", none⟩]⟩
      ".reset" (some ⟨"other", "other"⟩) [⟨Role.ai, "r", none⟩] =
    some (⟨⟨"sm", "tp"⟩, ⟨"sm", "tp"⟩, []⟩, none) :=
  handleLine_reset
    ⟨⟨"sm", "tp"⟩, ⟨"sm", "tp"⟩,
      [⟨Role.human, "a", none⟩, ⟨Role.ai, "b", none⟩]⟩
    ".reset" (some ⟨"other", "other"⟩) [⟨Role.ai, "r", none⟩] (by decide)

end Clmi
